import Mathlib

/-!
Verification of the certificate lifecycle logic of the auto-update-tls
repository.  Python strings are embedded as `List Char`; the string
primitives the code uses (`strip`, `split`, `startswith`, `rstrip`) are
defined below with Python's semantics.  Instants are seconds since the
Unix epoch (proleptic Gregorian calendar, as Python `datetime`
subtraction).  Fallible list indexing is modelled in `Except PyError`.
-/

set_option maxHeartbeats 1000000

namespace AutoCertbot

/-- The whitespace characters stripped by Python `str.strip()` (ASCII range). -/
def pyIsSpace (c : Char) : Bool :=
  c = ' ' || c = '\t' || c = '\n' || c = '\r' || c = '\x0b' || c = '\x0c'

/-- Python `s.strip()`: drop whitespace from both ends. -/
def pyStrip (s : List Char) : List Char :=
  ((s.dropWhile pyIsSpace).reverse.dropWhile pyIsSpace).reverse

/-- Python `s.split(sep)` for a one-character separator `sep`. -/
def splitOnChar (sep : Char) : List Char → List (List Char)
  | [] => [[]]
  | c :: rest =>
    if c = sep then [] :: splitOnChar sep rest
    else
      match splitOnChar sep rest with
      | [] => [[c]]
      | h :: t => (c :: h) :: t

/-- Three-letter month abbreviations recognised by `%b` (case-insensitive). -/
def monthOfAbbr (c1 c2 c3 : Char) : Option Nat :=
  match c1.toLower, c2.toLower, c3.toLower with
  | 'j', 'a', 'n' => some 1
  | 'f', 'e', 'b' => some 2
  | 'm', 'a', 'r' => some 3
  | 'a', 'p', 'r' => some 4
  | 'm', 'a', 'y' => some 5
  | 'j', 'u', 'n' => some 6
  | 'j', 'u', 'l' => some 7
  | 'a', 'u', 'g' => some 8
  | 's', 'e', 'p' => some 9
  | 'o', 'c', 't' => some 10
  | 'n', 'o', 'v' => some 11
  | 'd', 'e', 'c' => some 12
  | _, _, _ => none

def digitVal (c : Char) : Nat := c.toNat - '0'.toNat

/-- Parse one or two decimal digits, greedily, as `%d`/`%H`/`%M`/`%S` do. -/
def parseNum2 : List Char → Option (Nat × List Char)
  | [] => none
  | c1 :: rest =>
    if c1.isDigit then
      match rest with
      | [] => some (digitVal c1, [])
      | c2 :: rest2 =>
        if c2.isDigit then some (10 * digitVal c1 + digitVal c2, rest2)
        else some (digitVal c1, rest)
    else none

/-- Parse exactly four decimal digits, as `%Y` does. -/
def parseNum4 : List Char → Option (Nat × List Char)
  | c1 :: c2 :: c3 :: c4 :: rest =>
    if c1.isDigit && c2.isDigit && c3.isDigit && c4.isDigit then
      some (1000 * digitVal c1 + 100 * digitVal c2 + 10 * digitVal c3 + digitVal c4, rest)
    else none
  | _ => none

def skipSpaces0 : List Char → List Char
  | [] => []
  | c :: rest => if pyIsSpace c then skipSpaces0 rest else c :: rest

/-- One or more whitespace characters, as a blank in a strptime format. -/
def skipSpaces1 : List Char → Option (List Char)
  | [] => none
  | c :: rest => if pyIsSpace c then some (skipSpaces0 rest) else none

def expectChar (c : Char) : List Char → Option (List Char)
  | [] => none
  | x :: rest => if x = c then some rest else none

/-- `%Z` at end of input: the timezone names `GMT`/`UTC` (case-insensitive). -/
def parseTZEnd : List Char → Option Unit
  | [c1, c2, c3] =>
    match c1.toLower, c2.toLower, c3.toLower with
    | 'g', 'm', 't' => some ()
    | 'u', 't', 'c' => some ()
    | _, _, _ => none
  | _ => none

def isLeapYear (y : Nat) : Bool :=
  (y % 4 = 0 && y % 100 ≠ 0) || y % 400 = 0

def daysInMonth (y m : Nat) : Nat :=
  match m with
  | 1 => 31
  | 2 => if isLeapYear y then 29 else 28
  | 3 => 31
  | 4 => 30
  | 5 => 31
  | 6 => 30
  | 7 => 31
  | 8 => 31
  | 9 => 30
  | 10 => 31
  | 11 => 30
  | 12 => 31
  | _ => 0

def daysBeforeMonthBase (m : Nat) : Nat :=
  match m with
  | 1 => 0
  | 2 => 31
  | 3 => 59
  | 4 => 90
  | 5 => 120
  | 6 => 151
  | 7 => 181
  | 8 => 212
  | 9 => 243
  | 10 => 273
  | 11 => 304
  | 12 => 334
  | _ => 0

def daysBeforeMonth (y m : Nat) : Nat :=
  daysBeforeMonthBase m + (if 3 ≤ m && isLeapYear y then 1 else 0)

/-- Seconds since 1970-01-01 00:00:00 of a civil date-time, proleptic
Gregorian, matching Python `datetime` subtraction.  719162 is the number of
days from 0001-01-01 to 1970-01-01. -/
def toTimestamp (y m d h mi s : Nat) : Int :=
  let yd := y - 1
  let ordinalDays : Nat :=
    365 * yd + yd / 4 - yd / 100 + yd / 400 + daysBeforeMonth y m + (d - 1)
  86400 * ((ordinalDays : Int) - 719162) + 3600 * (h : Int) + 60 * (mi : Int) + (s : Int)

/-- `datetime.strptime(s, "%b %d %H:%M:%S %Y %Z")` (src/main.py line 136):
the whole string must match, fields are range-checked as the `datetime`
constructor does, and the result is the instant in seconds since the epoch.
`none` models the `ValueError` raised on any mismatch. -/
def strptimeCert (s : List Char) : Option Int :=
  match s with
  | c1 :: c2 :: c3 :: rest =>
    match monthOfAbbr c1 c2 c3 with
    | none => none
    | some m => do
      let r1 ← skipSpaces1 rest
      let (d, r2) ← parseNum2 r1
      let r3 ← skipSpaces1 r2
      let (h, r4) ← parseNum2 r3
      let r5 ← expectChar ':' r4
      let (mi, r6) ← parseNum2 r5
      let r7 ← expectChar ':' r6
      let (sec, r8) ← parseNum2 r7
      let r9 ← skipSpaces1 r8
      let (y, r10) ← parseNum4 r9
      let r11 ← skipSpaces1 r10
      let _ ← parseTZEnd r11
      if 1 ≤ y && 1 ≤ d && d ≤ daysInMonth y m && h ≤ 23 && mi ≤ 59 && sec ≤ 59 then
        some (toTimestamp y m d h mi sec)
      else none
  | _ => none

/-- The one uncaught exception the embedded code can raise. -/
inductive PyError
  | indexError
  deriving DecidableEq

/-- Result of the external openssl invocation: captured stdout on exit
status zero, `err` for `subprocess.CalledProcessError`. -/
inductive CmdOutcome
  | ok (stdout : List Char)
  | err
  deriving DecidableEq

/-- The human-readable lines printed by check_certificate_status. -/
inductive Notice
  | certNotExist
  | failedCheck
  | failedParse
  | expired (endDate : Int)
  | validCert (endDate days hours minutes : Int)
  deriving DecidableEq

deriving instance DecidableEq for Except

structure CheckResult where
  result : Except PyError (Option Int)
  invokedOpenssl : Bool
  notices : List Notice
  deriving DecidableEq

/-- The ambient world of one check: the filesystem (`os.path.exists`),
the outcome of the openssl command, and `datetime.now()` in epoch seconds. -/
structure Env where
  fs : List Char → Bool
  openssl : CmdOutcome
  now : Int

/-- `f"/etc/letsencrypt/live/{domain}/cert.pem"` (src/main.py line 122). -/
def cert_path (domain : List Char) : List Char :=
  "/etc/letsencrypt/live/".toList ++ domain ++ "/cert.pem".toList

/-- Shallow embedding of `check_certificate_status` (src/main.py lines
120-160).  Returns the Python return value (`Option Int`, `none` being the
sentinel) inside `Except`, whose error case is the uncaught `IndexError`
raised by `.split('=')[1]` when the stripped stdout contains no `'='`. -/
def check_certificate_status (env : Env) (domain : List Char) : CheckResult :=
  if env.fs (cert_path domain) then
    match env.openssl with
    | .err => ⟨.ok none, true, [.failedCheck]⟩
    | .ok stdout =>
      match (splitOnChar '=' (pyStrip stdout))[1]? with
      | none => ⟨.error .indexError, true, []⟩
      | some endDateStr =>
        match strptimeCert endDateStr with
        | none => ⟨.ok none, true, [.failedParse]⟩
        | some endDate =>
          let timeRemaining := endDate - env.now
          let days := Int.ediv timeRemaining 86400
          let hours := Int.ediv (Int.emod timeRemaining 86400) 3600
          let minutes := Int.ediv (Int.emod (Int.emod timeRemaining 86400) 3600) 60
          if timeRemaining ≤ 0 then ⟨.ok (some 0), true, [.expired endDate]⟩
          else ⟨.ok (some days), true, [.validCert endDate days hours minutes]⟩
  else ⟨.ok none, false, [.certNotExist]⟩

/-- The three-way branch taken per domain by `auto_update_certificates`
(src/main.py lines 191-203). -/
inductive AutoAction
  | obtainNew
  | renew
  | noRenewal
  deriving DecidableEq

def auto_update_decision (daysRemaining : Option Int) (thresholdDays : Int) : AutoAction :=
  match daysRemaining with
  | none => .obtainNew
  | some d => if d ≤ thresholdDays then .renew else .noRenewal

/-- Argparse values reaching the certificate-obtaining branch of `main`. -/
structure ManualArgs where
  domain : Option (List Char)
  email : Option (List Char)

/-- Python truthiness of an optional string (`not args.domain`). -/
def pyTruthy : Option (List Char) → Bool
  | none => false
  | some s => !s.isEmpty

/-- Exit status of the obtain-certificate branch of `main` (src/main.py
lines 230-243): 1 on missing domain/email, 1 when certbot is absent and
its pip install fails (`install_certbot`), 1 when `obtain_certificate`
reports failure, 0 on success. -/
def obtain_mode_exit (args : ManualArgs)
    (certbotInstalled pipInstallOk issuance : Bool) : Nat :=
  if !(pyTruthy args.domain) || !(pyTruthy args.email) then 1
  else if !certbotInstalled && !pipInstallOk then 1
  else if issuance then 0 else 1

/-- Python `s.split(' (')`: split on the two-character separator,
left-to-right, non-overlapping. -/
def splitParen : List Char → List (List Char)
  | [] => [[]]
  | [c] => [[c]]
  | c1 :: c2 :: rest =>
    if c1 = ' ' && c2 = '(' then [] :: splitParen rest
    else
      match splitParen (c2 :: rest) with
      | [] => [[c1]]
      | h :: t => (c1 :: h) :: t

/-- Python `' (' in s`. -/
def containsSep : List Char → Bool
  | [] => false
  | [_] => false
  | c1 :: c2 :: rest => (c1 = ' ' && c2 = '(') || containsSep (c2 :: rest)

/-- Python `s.rstrip(')')`: drop every trailing `')'`. -/
def pyRStripParen (s : List Char) : List Char :=
  (s.reverse.dropWhile (fun c => c = ')')).reverse

/-- Python `line.split(':', 1)[1]`: the text after the first colon,
an `IndexError` when the line has no colon. -/
def afterColon1 : List Char → Except PyError (List Char)
  | [] => .error .indexError
  | c :: rest => if c = ':' then .ok rest else afterColon1 rest

def headerLabel : List Char := "  Certificate Name:".toList

def domainsLabel : List Char := "    Domains:".toList

def expiryLabel : List Char := "    Expiry Date:".toList

/-- One parsed certificate entry (the dict built at src/main.py lines
94-99: Certificate Name, Domains, Expiry Date, Status). -/
structure CertRecord where
  name : List Char
  domains : List Char
  expiry : List Char
  status : List Char
  deriving DecidableEq

/-- The expiry-line handling (src/main.py lines 90-92), applied to the
already-stripped text after the label's colon: `expiry` is the stripped
first segment of the `' ('` split, `status` the `')'`-rstripped second
segment when `' ('` occurs, else the empty string. -/
def parseExpiryRemainder (el : List Char) :
    Except PyError (List Char × List Char) :=
  match (splitParen el)[0]? with
  | none => .error .indexError
  | some e0 =>
    if containsSep el then
      match (splitParen el)[1]? with
      | none => .error .indexError
      | some e1 => .ok (pyStrip e0, pyRStripParen e1)
    else .ok (pyStrip e0, [])

/-- The inner while loop of list_certificates (src/main.py lines 86-93):
starting just after a header line, fold the recognised sub-field lines
into (domains, expiry, status) until the next header line, a blank line,
or the end of input; also return how many lines were consumed (the
advance of the index `i`). -/
def parseBody : List (List Char) → List Char → List Char → List Char →
    Except PyError ((List Char × List Char × List Char) × Nat)
  | [], d, e, s => .ok ((d, e, s), 0)
  | l :: rest, d, e, s =>
    if headerLabel.isPrefixOf l || (pyStrip l).isEmpty then .ok ((d, e, s), 0)
    else if domainsLabel.isPrefixOf l then
      match afterColon1 l with
      | .error err => .error err
      | .ok r =>
        match parseBody rest (pyStrip r) e s with
        | .error err => .error err
        | .ok (f, k) => .ok (f, k + 1)
    else if expiryLabel.isPrefixOf l then
      match afterColon1 l with
      | .error err => .error err
      | .ok r =>
        match parseExpiryRemainder (pyStrip r) with
        | .error err => .error err
        | .ok (e2, s2) =>
          match parseBody rest d e2 s2 with
          | .error err => .error err
          | .ok (f, k) => .ok (f, k + 1)
    else
      match parseBody rest d e s with
      | .error err => .error err
      | .ok (f, k) => .ok (f, k + 1)

/-- The outer while loop of list_certificates (src/main.py lines 79-101):
scan for header lines; at each one take the text after the colon,
stripped, as the record name, run the inner loop over the following
lines, append the record, and resume at the line the inner loop stopped
on.  The Nat argument bounds the number of remaining iterations (the
index `i` advances by at least one per iteration) and serves as the
structural recursion measure; starting it at the number of lines it never
runs out (`parseCertsN_fuel` below). -/
def parseCertsN : Nat → List (List Char) → Except PyError (List CertRecord)
  | _, [] => .ok []
  | 0, _ :: _ => .ok []
  | n + 1, l :: rest =>
    if headerLabel.isPrefixOf l then
      match afterColon1 l with
      | .error err => .error err
      | .ok nameRest =>
        match parseBody rest [] [] [] with
        | .error err => .error err
        | .ok ((d, e, s), k) =>
          match parseCertsN n (rest.drop k) with
          | .error err => .error err
          | .ok recs => .ok (⟨pyStrip nameRest, d, e, s⟩ :: recs)
    else parseCertsN n rest

def parseCerts (lines : List (List Char)) : Except PyError (List CertRecord) :=
  parseCertsN lines.length lines

/-- The parsing part of list_certificates applied to the captured stdout
of the external list command (`output.split('\n')` then the line scan). -/
def list_certificates_parse (output : List Char) :
    Except PyError (List CertRecord) :=
  parseCerts (splitOnChar '\n' output)

/-- A well-formed header block as the round-trip claim constructs it. -/
structure HeaderBlock where
  name : List Char
  domains : List Char
  date : List Char
  status : List Char

/-- The three lines of one well-formed header block:
`  Certificate Name: <name>`, `    Domains: <domains>`,
`    Expiry Date: <date> (<status>)`. -/
def renderBlock (b : HeaderBlock) : List (List Char) :=
  [headerLabel ++ (' ' :: b.name),
   domainsLabel ++ (' ' :: b.domains),
   expiryLabel ++ (' ' :: (b.date ++ ' ' :: '(' :: (b.status ++ [')'])))]

def joinLines : List (List Char) → List Char
  | [] => []
  | [l] => l
  | l :: rest => l ++ '\n' :: joinLines rest

def renderReport (bs : List HeaderBlock) : List Char :=
  joinLines ((bs.map renderBlock).flatten)

/-- Well-formedness of a constructed block: fields are newline-free, name,
domains and date carry no surrounding whitespace, the date is non-empty
and neither date nor status contains the `' ('` separator, and the status
does not end in `')'`. -/
def wfBlock (b : HeaderBlock) : Prop :=
  '\n' ∉ b.name ∧ pyStrip b.name = b.name
  ∧ '\n' ∉ b.domains ∧ pyStrip b.domains = b.domains
  ∧ b.date ≠ [] ∧ '\n' ∉ b.date ∧ pyStrip b.date = b.date
  ∧ containsSep b.date = false
  ∧ '\n' ∉ b.status ∧ containsSep b.status = false
  ∧ b.status.getLast? ≠ some ')'

instance (b : HeaderBlock) : Decidable (wfBlock b) := by
  unfold wfBlock
  infer_instance

/-- The record the round-trip claim expects back from one block. -/
def blockRecord (b : HeaderBlock) : CertRecord :=
  ⟨b.name, b.domains, b.date, b.status⟩

/-- Modelled from the claim's words, for comparison with the code:
"everything to the right of that first occurrence" of `' ('`. -/
def textAfterFirstSep : List Char → List Char
  | [] => []
  | [_] => []
  | c1 :: c2 :: rest =>
    if c1 = ' ' && c2 = '(' then rest else textAfterFirstSep (c2 :: rest)

/-- C1: the claim includes openssl outputs with no `'='` separator, but on
such an output (`"garbage"`, exit status zero, artifact present) the
uncaught `IndexError` from `.split('=')[1]` escapes and the function does
not return the `None` sentinel. -/
theorem C1_counterexample :
    (check_certificate_status ⟨fun _ => true, .ok ("garbage".toList), 0⟩
        ("example.com".toList)).result = .error .indexError
    ∧ (check_certificate_status ⟨fun _ => true, .ok ("garbage".toList), 0⟩
        ("example.com".toList)).result ≠ .ok none := by
  exact ⟨by decide, by decide⟩

/-- C1 (amended): when the external command exits zero and its stripped
output contains at least one `'='`, but the text between the first and
second `'='` does not match the expected date format, check returns the
`None` sentinel and no exception escapes. -/
theorem C1_unreadable (env : Env) (domain stdout endDateStr : List Char)
    (hfs : env.fs (cert_path domain) = true)
    (hcmd : env.openssl = .ok stdout)
    (hsplit : (splitOnChar '=' (pyStrip stdout))[1]? = some endDateStr)
    (hparse : strptimeCert endDateStr = none) :
    (check_certificate_status env domain).result = .ok none := by
  simp [check_certificate_status, hfs, hcmd, hsplit, hparse]

theorem C1_unreadable_witness :
    (check_certificate_status ⟨fun _ => true, .ok ("notAfter=BAD DATE".toList), 0⟩
      ("example.com".toList)).result = .ok none :=
  C1_unreadable ⟨fun _ => true, .ok ("notAfter=BAD DATE".toList), 0⟩
    ("example.com".toList) ("notAfter=BAD DATE".toList) ("BAD DATE".toList)
    rfl rfl (by decide) (by decide)

/-- C2: for a certificate that lapsed 100 days before `now`, the remaining
duration in whole days is -100, but check returns 0: the return value is
non-positive yet does not preserve how long ago the certificate lapsed. -/
theorem C2_counterexample :
    (check_certificate_status
        ⟨fun _ => true, .ok ("notAfter=Dec 31 23:59:59 2024 GMT".toList),
          1735689599 + 8640000⟩ ("example.com".toList)).result = .ok (some 0)
    ∧ Int.ediv ((1735689599 : Int) - (1735689599 + 8640000)) 86400 = -100
    ∧ (0 : Int) ≠ -100 := by
  exact ⟨by decide, by decide, by decide⟩

/-- C2 (amended): for a parsed not-after instant strictly before `now`,
check still returns a non-`None` value, namely 0 — non-positive and
distinct from the `Absent`/error sentinel, but the magnitude of the lapse
is discarded. -/
theorem C2_expired_returns_zero (env : Env)
    (domain stdout endDateStr : List Char) (endDate : Int)
    (hfs : env.fs (cert_path domain) = true)
    (hcmd : env.openssl = .ok stdout)
    (hsplit : (splitOnChar '=' (pyStrip stdout))[1]? = some endDateStr)
    (hparse : strptimeCert endDateStr = some endDate)
    (hpast : endDate < env.now) :
    (check_certificate_status env domain).result = .ok (some 0) := by
  have h0 : endDate - env.now ≤ 0 := by omega
  simp [check_certificate_status, hfs, hcmd, hsplit, hparse, h0]

theorem C2_expired_returns_zero_witness :
    (check_certificate_status
        ⟨fun _ => true, .ok ("notAfter=Dec 31 23:59:59 2024 GMT".toList),
          1735689600⟩ ("example.com".toList)).result = .ok (some 0) :=
  C2_expired_returns_zero
    ⟨fun _ => true, .ok ("notAfter=Dec 31 23:59:59 2024 GMT".toList), 1735689600⟩
    ("example.com".toList) ("notAfter=Dec 31 23:59:59 2024 GMT".toList)
    ("Dec 31 23:59:59 2024 GMT".toList) 1735689599
    rfl rfl (by decide) (by decide) (by decide)

/-- C4: the date text `"Dec 31 23:59:59 2024 GMT"` parses (by calendar
conversion) to the instant 1735689599; for any `now` strictly before it,
check takes the valid branch and returns the exact difference truncated to
whole days (floor and truncation agree on the positive difference). -/
theorem C4_valid_exact (env : Env) (domain : List Char)
    (hfs : env.fs (cert_path domain) = true)
    (hcmd : env.openssl = .ok ("notAfter=Dec 31 23:59:59 2024 GMT".toList))
    (hnow : env.now < 1735689599) :
    strptimeCert ("Dec 31 23:59:59 2024 GMT".toList) = some 1735689599
    ∧ (check_certificate_status env domain).result
        = .ok (some (Int.ediv (1735689599 - env.now) 86400))
    ∧ Int.ediv (1735689599 - env.now) 86400
        = Int.tdiv (1735689599 - env.now) 86400 := by
  have hsplit :
      (splitOnChar '='
        (pyStrip ("notAfter=Dec 31 23:59:59 2024 GMT".toList)))[1]?
        = some ("Dec 31 23:59:59 2024 GMT".toList) := by decide
  have hparse : strptimeCert ("Dec 31 23:59:59 2024 GMT".toList)
      = some 1735689599 := by decide
  have hpos : ¬ ((1735689599 : Int) - env.now ≤ 0) := by omega
  refine ⟨hparse, ?_, ?_⟩
  · unfold check_certificate_status
    rw [hcmd, hfs]
    dsimp only
    rw [hsplit]
    dsimp only
    rw [hparse]
    dsimp only
    rw [if_neg hpos]
    simp
  · have h1 : 0 ≤ (1735689599 : Int) - env.now := by omega
    obtain ⟨n, hn⟩ := Int.eq_ofNat_of_zero_le h1
    rw [hn]
    rfl

theorem C4_valid_exact_witness :
    (check_certificate_status
        ⟨fun _ => true, .ok ("notAfter=Dec 31 23:59:59 2024 GMT".toList),
          1735689599 - 8640000⟩ ("example.com".toList)).result
      = .ok (some (Int.ediv (1735689599 - (1735689599 - 8640000)) 86400)) :=
  (C4_valid_exact
    ⟨fun _ => true, .ok ("notAfter=Dec 31 23:59:59 2024 GMT".toList),
      1735689599 - 8640000⟩
    ("example.com".toList) rfl rfl (by decide)).2.1

/-- C6: the tested artifact path is exactly the fixed base directory, the
domain segment, and the fixed file name; when the filesystem has nothing
there, check returns the `Absent` sentinel with a notice and without
invoking openssl; and the outcome depends on the filesystem only through
that single path. -/
theorem C6_absent (env : Env) (domain : List Char)
    (habs : env.fs (cert_path domain) = false) :
    cert_path domain = "/etc/letsencrypt/live/".toList ++ domain ++ "/cert.pem".toList
    ∧ check_certificate_status env domain = ⟨.ok none, false, [.certNotExist]⟩
    ∧ ∀ env' : Env, env'.openssl = env.openssl → env'.now = env.now →
        env'.fs (cert_path domain) = env.fs (cert_path domain) →
        check_certificate_status env' domain = check_certificate_status env domain := by
  refine ⟨rfl, ?_, ?_⟩
  · simp [check_certificate_status, habs]
  · intro env' h1 h2 h3
    unfold check_certificate_status
    rw [h1, h2, h3]

theorem C6_absent_witness :
    check_certificate_status ⟨fun _ => false, .err, 0⟩ ("example.com".toList)
      = ⟨.ok none, false, [.certNotExist]⟩ :=
  (C6_absent ⟨fun _ => false, .err, 0⟩ ("example.com".toList) rfl).2.1

/-- C8: in the manual obtaining mode, a missing (or empty) domain or email
exits non-zero; once the issuance step is reached, the exit status is zero
exactly when the external issuance operation reports success. -/
theorem C8_exit_codes (args : ManualArgs) (inst instOk succ : Bool) :
    (pyTruthy args.domain = false ∨ pyTruthy args.email = false →
      obtain_mode_exit args inst instOk succ ≠ 0)
    ∧ (pyTruthy args.domain = true → pyTruthy args.email = true →
        inst = true ∨ instOk = true →
        (obtain_mode_exit args inst instOk succ = 0 ↔ succ = true)) := by
  constructor
  · intro h
    rcases h with h | h <;> simp [obtain_mode_exit, h]
  · intro hd he hr
    rcases hr with h | h <;> cases succ <;> cases inst <;> cases instOk <;>
      simp_all [obtain_mode_exit]

theorem C8_exit_codes_witness :
    obtain_mode_exit ⟨none, some ("a@b.com".toList)⟩ true true true ≠ 0
    ∧ (obtain_mode_exit ⟨some ("example.com".toList), some ("a@b.com".toList)⟩
        true true false = 0 ↔ false = true) :=
  ⟨(C8_exit_codes ⟨none, some ("a@b.com".toList)⟩ true true true).1
      (Or.inl (by decide)),
   (C8_exit_codes ⟨some ("example.com".toList), some ("a@b.com".toList)⟩
      true true false).2 (by decide) (by decide) (Or.inl rfl)⟩

/-- C9: artifact absence, openssl failure, and date-parse failure all
return the same `None` sentinel, and in auto mode that sentinel takes the
obtain-new-certificate branch, so the caller cannot tell the three apart
from the return value. -/
theorem C9_same_sentinel (dom : List Char) (env1 env2 env3 : Env)
    (stdout3 endDateStr3 : List Char) (threshold : Int)
    (h1 : env1.fs (cert_path dom) = false)
    (h2f : env2.fs (cert_path dom) = true) (h2c : env2.openssl = .err)
    (h3f : env3.fs (cert_path dom) = true) (h3c : env3.openssl = .ok stdout3)
    (h3s : (splitOnChar '=' (pyStrip stdout3))[1]? = some endDateStr3)
    (h3p : strptimeCert endDateStr3 = none) :
    (check_certificate_status env1 dom).result = .ok none
    ∧ (check_certificate_status env2 dom).result = .ok none
    ∧ (check_certificate_status env3 dom).result = .ok none
    ∧ auto_update_decision none threshold = .obtainNew := by
  refine ⟨?_, ?_, ?_, rfl⟩
  · simp [check_certificate_status, h1]
  · simp [check_certificate_status, h2f, h2c]
  · simp [check_certificate_status, h3f, h3c, h3s, h3p]

theorem C9_same_sentinel_witness :
    (check_certificate_status ⟨fun _ => false, .err, 0⟩ ("a.com".toList)).result
      = .ok none
    ∧ (check_certificate_status ⟨fun _ => true, .err, 0⟩ ("a.com".toList)).result
      = .ok none
    ∧ (check_certificate_status ⟨fun _ => true, .ok ("notAfter=nonsense".toList), 0⟩
        ("a.com".toList)).result = .ok none
    ∧ auto_update_decision none 30 = .obtainNew :=
  C9_same_sentinel ("a.com".toList)
    ⟨fun _ => false, .err, 0⟩ ⟨fun _ => true, .err, 0⟩
    ⟨fun _ => true, .ok ("notAfter=nonsense".toList), 0⟩
    ("notAfter=nonsense".toList) ("nonsense".toList) 30
    rfl rfl rfl rfl rfl (by decide) (by decide)

theorem isPrefixOf_append_self (p t : List Char) : p.isPrefixOf (p ++ t) = true := by
  induction p with
  | nil => simp [List.isPrefixOf]
  | cons a p ih => simp [List.isPrefixOf, ih]

theorem take_eq_of_isPrefixOf {p l : List Char} {n : Nat} (hn : n ≤ p.length)
    (h : p.isPrefixOf l = true) : p.take n = l.take n := by
  induction p generalizing l n with
  | nil =>
    have : n = 0 := Nat.le_zero.mp (by simpa using hn)
    simp [this]
  | cons a p ih =>
    cases l with
    | nil => simp [List.isPrefixOf] at h
    | cons b l =>
      simp only [List.isPrefixOf, Bool.and_eq_true, beq_iff_eq] at h
      obtain ⟨rfl, hpl⟩ := h
      cases n with
      | zero => simp
      | succ m =>
        have hm : m ≤ p.length := by simpa using hn
        simp [List.take_succ_cons, ih hm hpl]

theorem isPrefixOf_eq_false_of_take {p l : List Char} (n : Nat)
    (hn : n ≤ p.length) (hne : p.take n ≠ l.take n) : p.isPrefixOf l = false := by
  cases hb : p.isPrefixOf l
  · rfl
  · exact absurd (take_eq_of_isPrefixOf hn hb) hne

theorem afterColon1_append (q s : List Char) (hq : ':' ∉ q) :
    afterColon1 (q ++ ':' :: s) = .ok s := by
  induction q with
  | nil => simp [afterColon1]
  | cons a q ih =>
    have ha : ¬ a = ':' := fun h => hq (by simp [h])
    simp only [List.cons_append, afterColon1, if_neg ha]
    exact ih fun h => hq (List.mem_cons_of_mem a h)

theorem afterColon1_headerLabel (s : List Char) :
    afterColon1 (headerLabel ++ s) = .ok s := by
  have h : headerLabel = "  Certificate Name".toList ++ [':'] := by decide
  rw [h, List.append_assoc, List.singleton_append]
  exact afterColon1_append _ s (by decide)

theorem afterColon1_domainsLabel (s : List Char) :
    afterColon1 (domainsLabel ++ s) = .ok s := by
  have h : domainsLabel = "    Domains".toList ++ [':'] := by decide
  rw [h, List.append_assoc, List.singleton_append]
  exact afterColon1_append _ s (by decide)

theorem afterColon1_expiryLabel (s : List Char) :
    afterColon1 (expiryLabel ++ s) = .ok s := by
  have h : expiryLabel = "    Expiry Date".toList ++ [':'] := by decide
  rw [h, List.append_assoc, List.singleton_append]
  exact afterColon1_append _ s (by decide)

theorem header_not_of_domains (x : List Char) :
    headerLabel.isPrefixOf (domainsLabel ++ x) = false := by
  apply isPrefixOf_eq_false_of_take 3 (by decide)
  rw [List.take_append_eq_append_take]
  have h : 3 - domainsLabel.length = 0 := by decide
  rw [h, List.take_zero, List.append_nil]
  decide

theorem header_not_of_expiry (x : List Char) :
    headerLabel.isPrefixOf (expiryLabel ++ x) = false := by
  apply isPrefixOf_eq_false_of_take 3 (by decide)
  rw [List.take_append_eq_append_take]
  have h : 3 - expiryLabel.length = 0 := by decide
  rw [h, List.take_zero, List.append_nil]
  decide

theorem mem_dropWhile_of_mem {p : Char → Bool} {c : Char} {l : List Char}
    (hc : c ∈ l) (hp : p c = false) : c ∈ l.dropWhile p := by
  induction l with
  | nil => cases hc
  | cons a l ih =>
    by_cases ha : p a = true
    · rcases List.mem_cons.mp hc with rfl | hmem
      · rw [ha] at hp; cases hp
      · simpa [List.dropWhile_cons, ha] using ih hmem
    · have ha' : p a = false := by simpa using ha
      simpa [List.dropWhile_cons, ha'] using hc

theorem pyStrip_ne_nil {l : List Char} {c : Char} (hc : c ∈ l)
    (hp : pyIsSpace c = false) : pyStrip l ≠ [] := by
  intro h
  unfold pyStrip at h
  have h1 : c ∈ l.dropWhile pyIsSpace := mem_dropWhile_of_mem hc hp
  have h2 : c ∈ (l.dropWhile pyIsSpace).reverse := List.mem_reverse.mpr h1
  have h3 : c ∈ (l.dropWhile pyIsSpace).reverse.dropWhile pyIsSpace :=
    mem_dropWhile_of_mem h2 hp
  rw [List.reverse_eq_nil_iff] at h
  rw [h] at h3
  cases h3

theorem isEmpty_false_of_ne_nil {l : List Char} (h : l ≠ []) : l.isEmpty = false := by
  cases l
  · exact absurd rfl h
  · rfl

theorem pyStrip_cons_space (s : List Char) : pyStrip (' ' :: s) = pyStrip s := by
  simp [pyStrip, List.dropWhile_cons, show pyIsSpace ' ' = true from rfl]

theorem head_not_space_of_pyStrip {c : Char} {t : List Char}
    (h : pyStrip (c :: t) = c :: t) : pyIsSpace c = false := by
  cases hb : pyIsSpace c
  · rfl
  · exfalso
    have hlen : (pyStrip (c :: t)).length ≤ t.length := by
      unfold pyStrip
      rw [List.dropWhile_cons, if_pos hb]
      calc ((t.dropWhile pyIsSpace).reverse.dropWhile pyIsSpace).reverse.length
          = ((t.dropWhile pyIsSpace).reverse.dropWhile pyIsSpace).length := by
            rw [List.length_reverse]
        _ ≤ (t.dropWhile pyIsSpace).reverse.length := (List.dropWhile_sublist _).length_le
        _ = (t.dropWhile pyIsSpace).length := by rw [List.length_reverse]
        _ ≤ t.length := (List.dropWhile_sublist _).length_le
    rw [h] at hlen
    simp at hlen

theorem pyStrip_eq_self_of_ends {l : List Char}
    (hhead : ∃ c t, l = c :: t ∧ pyIsSpace c = false)
    (hlast : ∃ c t, l.reverse = c :: t ∧ pyIsSpace c = false) : pyStrip l = l := by
  obtain ⟨c, t, rfl, hc⟩ := hhead
  obtain ⟨c', t', hr, hc'⟩ := hlast
  unfold pyStrip
  rw [List.dropWhile_cons, if_neg (by simp [hc]), hr, List.dropWhile_cons,
    if_neg (by simp [hc']), ← hr, List.reverse_reverse]

theorem splitParen_ne_nil (s : List Char) : splitParen s ≠ [] := by
  match s with
  | [] => simp [splitParen]
  | [c] => simp [splitParen]
  | c1 :: c2 :: rest =>
    simp only [splitParen]
    split
    · simp
    · split <;> simp

theorem splitParen_no_sep (s : List Char) (h : containsSep s = false) :
    splitParen s = [s] := by
  induction s with
  | nil => rfl
  | cons c s ih =>
    cases s with
    | nil => rfl
    | cons c2 s' =>
      simp only [containsSep, Bool.or_eq_false_iff] at h
      simp only [splitParen, h.1, if_false]
      rw [ih h.2]
      simp

theorem splitParen_sep_cons (d r : List Char) (hd : containsSep d = false) :
    splitParen (d ++ ' ' :: '(' :: r) = d :: splitParen r := by
  induction d with
  | nil => simp [splitParen]
  | cons c d ih =>
    cases d with
    | nil =>
      simp only [List.nil_append, List.cons_append, splitParen]
      rw [if_neg (by simp), if_pos (by simp)]
    | cons d1 d' =>
      simp only [containsSep, Bool.or_eq_false_iff] at hd
      simp only [List.cons_append, splitParen, hd.1, if_false, List.append_eq]
      have ih' := ih hd.2
      rw [List.cons_append] at ih'
      rw [ih']
      simp

theorem containsSep_append_sep (d r : List Char) :
    containsSep (d ++ ' ' :: '(' :: r) = true := by
  induction d with
  | nil => simp [containsSep]
  | cons c d ih =>
    cases d with
    | nil => simp [containsSep]
    | cons d1 d' =>
      have ih' := ih
      rw [List.cons_append] at ih'
      simp [List.cons_append, containsSep, ih']

theorem containsSep_append_paren (s : List Char) (h : containsSep s = false) :
    containsSep (s ++ [')']) = false := by
  induction s with
  | nil => rfl
  | cons c s ih =>
    cases s with
    | nil => simp [containsSep]
    | cons c2 s' =>
      simp only [containsSep, Bool.or_eq_false_iff] at h
      have ih' := ih h.2
      rw [List.cons_append] at ih'
      simp [List.cons_append, containsSep, h.1, ih']

theorem pyRStripParen_append (s : List Char) :
    pyRStripParen (s ++ [')']) = pyRStripParen s := by
  simp [pyRStripParen, List.reverse_append, List.dropWhile_cons]

theorem pyRStripParen_eq_self (s : List Char) (h : s.getLast? ≠ some ')') :
    pyRStripParen s = s := by
  cases hr : s.reverse with
  | nil =>
    have hs : s = [] := by
      rw [← List.reverse_reverse s, hr]
      rfl
    simp [hs, pyRStripParen]
  | cons c t =>
    have hc : ¬ c = ')' := by
      intro hcc
      apply h
      rw [← List.head?_reverse, hr, hcc]
      rfl
    unfold pyRStripParen
    rw [hr, List.dropWhile_cons, if_neg (by simp [hc]), ← hr, List.reverse_reverse]

theorem parseExpiryRemainder_no_sep (r : List Char) (h : containsSep r = false) :
    parseExpiryRemainder r = .ok (pyStrip r, []) := by
  simp [parseExpiryRemainder, splitParen_no_sep r h, h]

theorem parseExpiryRemainder_one_sep (a b : List Char)
    (ha : containsSep a = false) (hb : containsSep b = false) :
    parseExpiryRemainder (a ++ ' ' :: '(' :: b) = .ok (pyStrip a, pyRStripParen b) := by
  simp [parseExpiryRemainder, splitParen_sep_cons a b ha, splitParen_no_sep b hb,
    containsSep_append_sep]

theorem parseExpiryRemainder_two_sep (a b c : List Char)
    (ha : containsSep a = false) (hb : containsSep b = false) :
    parseExpiryRemainder (a ++ ' ' :: '(' :: (b ++ ' ' :: '(' :: c))
      = .ok (pyStrip a, pyRStripParen b) := by
  simp [parseExpiryRemainder, splitParen_sep_cons a _ ha, splitParen_sep_cons b c hb,
    containsSep_append_sep]

theorem domains_not_of_expiry (x : List Char) :
    domainsLabel.isPrefixOf (expiryLabel ++ x) = false := by
  apply isPrefixOf_eq_false_of_take 5 (by decide)
  rw [List.take_append_eq_append_take]
  have h : 5 - expiryLabel.length = 0 := by decide
  rw [h, List.take_zero, List.append_nil]
  decide

theorem pyStrip_payload (dt st : List Char) (hdt : pyStrip dt = dt) (hne : dt ≠ []) :
    pyStrip (dt ++ ' ' :: '(' :: (st ++ [')'])) = dt ++ ' ' :: '(' :: (st ++ [')']) := by
  apply pyStrip_eq_self_of_ends
  · cases dt with
    | nil => exact absurd rfl hne
    | cons c t =>
      exact ⟨c, t ++ ' ' :: '(' :: (st ++ [')']), by simp, head_not_space_of_pyStrip hdt⟩
  · refine ⟨')', (dt ++ ' ' :: '(' :: st).reverse, ?_, by decide⟩
    have h : dt ++ ' ' :: '(' :: (st ++ [')']) = (dt ++ ' ' :: '(' :: st) ++ [')'] := by
      simp
    rw [h, List.reverse_append]
    rfl

theorem parseExpiryRemainder_payload (dt st : List Char)
    (hdt : pyStrip dt = dt) (hdsep : containsSep dt = false)
    (hssep : containsSep st = false) (hlast : st.getLast? ≠ some ')') :
    parseExpiryRemainder (dt ++ ' ' :: '(' :: (st ++ [')'])) = .ok (dt, st) := by
  rw [parseExpiryRemainder_one_sep dt (st ++ [')']) hdsep
      (containsSep_append_paren st hssep),
    hdt, pyRStripParen_append, pyRStripParen_eq_self st hlast]

theorem parseBody_stop (rest : List (List Char)) (d e s : List Char)
    (hstop : rest = [] ∨ ∃ l t, rest = l :: t ∧ headerLabel.isPrefixOf l = true) :
    parseBody rest d e s = .ok ((d, e, s), 0) := by
  rcases hstop with rfl | ⟨l, t, rfl, hl⟩
  · rfl
  · simp [parseBody, hl]

theorem parseBody_render (dm dt st : List Char) (rest : List (List Char))
    (hdm : pyStrip dm = dm) (hdt : pyStrip dt = dt) (hdtne : dt ≠ [])
    (hdsep : containsSep dt = false) (hssep : containsSep st = false)
    (hlast : st.getLast? ≠ some ')')
    (hstop : rest = [] ∨ ∃ l t, rest = l :: t ∧ headerLabel.isPrefixOf l = true) :
    parseBody ((domainsLabel ++ (' ' :: dm)) ::
        (expiryLabel ++ (' ' :: (dt ++ ' ' :: '(' :: (st ++ [')'])))) :: rest) [] [] []
      = .ok ((dm, dt, st), 2) := by
  have hne1 : (pyStrip (domainsLabel ++ (' ' :: dm))).isEmpty = false :=
    isEmpty_false_of_ne_nil
      (pyStrip_ne_nil (List.mem_append_left _ (show 'D' ∈ domainsLabel by decide))
        (by decide))
  have hne2 : (pyStrip (expiryLabel ++
      (' ' :: (dt ++ ' ' :: '(' :: (st ++ [')']))))).isEmpty = false :=
    isEmpty_false_of_ne_nil
      (pyStrip_ne_nil (List.mem_append_left _ (show 'E' ∈ expiryLabel by decide))
        (by decide))
  simp only [parseBody, header_not_of_domains, header_not_of_expiry, hne1, hne2,
    Bool.or_self, Bool.or_false, Bool.false_or, Bool.false_eq_true, if_false,
    isPrefixOf_append_self, if_true, domains_not_of_expiry,
    afterColon1_domainsLabel, afterColon1_expiryLabel]
  rw [pyStrip_cons_space, pyStrip_payload dt st hdt hdtne,
    parseExpiryRemainder_payload dt st hdt hdsep hssep hlast,
    pyStrip_cons_space, hdm]
  dsimp only
  rw [parseBody_stop rest dm dt st hstop]

theorem parseCertsN_render (bs : List HeaderBlock) : ∀ (n : Nat),
    ((bs.map renderBlock).flatten).length ≤ n →
    (∀ b ∈ bs, wfBlock b) →
    parseCertsN n ((bs.map renderBlock).flatten) = .ok (bs.map blockRecord) := by
  induction bs with
  | nil =>
    intro n _ _
    cases n <;> rfl
  | cons b bs ih =>
    intro n hn hwf
    obtain ⟨h1, h2, h3, h4, h5, h6, h7, h8, h9, h10, h11⟩ := hwf b (by simp)
    have hflat : ((b :: bs).map renderBlock).flatten
        = (headerLabel ++ (' ' :: b.name)) :: (domainsLabel ++ (' ' :: b.domains))
          :: (expiryLabel ++ (' ' :: (b.date ++ ' ' :: '(' :: (b.status ++ [')']))))
          :: (bs.map renderBlock).flatten := by
      simp [renderBlock]
    rw [hflat] at hn ⊢
    cases n with
    | zero => simp at hn
    | succ n =>
      have hstop : (bs.map renderBlock).flatten = []
          ∨ ∃ l t, (bs.map renderBlock).flatten = l :: t
              ∧ headerLabel.isPrefixOf l = true := by
        cases bs with
        | nil => exact Or.inl rfl
        | cons b' bs' =>
          exact Or.inr ⟨headerLabel ++ (' ' :: b'.name),
            (domainsLabel ++ (' ' :: b'.domains))
              :: (expiryLabel ++ (' ' :: (b'.date ++ ' ' :: '(' :: (b'.status ++ [')']))))
              :: ((bs'.map renderBlock).flatten),
            by simp [renderBlock], isPrefixOf_append_self _ _⟩
      simp only [parseCertsN, isPrefixOf_append_self, if_true, afterColon1_headerLabel]
      rw [parseBody_render b.domains b.date b.status _ h4 h7 h5 h8 h10 h11 hstop]
      dsimp only
      have hdrop : List.drop 2 ((domainsLabel ++ (' ' :: b.domains))
          :: (expiryLabel ++ (' ' :: (b.date ++ ' ' :: '(' :: (b.status ++ [')']))))
          :: (bs.map renderBlock).flatten) = (bs.map renderBlock).flatten := rfl
      rw [hdrop]
      have hlen : ((bs.map renderBlock).flatten).length ≤ n := by
        simp only [List.length_cons] at hn
        omega
      rw [ih n hlen fun b' hb' => hwf b' (by simp [hb'])]
      rw [pyStrip_cons_space, h2]
      rfl

theorem splitOnChar_of_not_mem (c : Char) (l : List Char) (h : c ∉ l) :
    splitOnChar c l = [l] := by
  induction l with
  | nil => rfl
  | cons a l ih =>
    have ha : ¬ a = c := fun e => h (by simp [e])
    have h' : c ∉ l := fun m => h (List.mem_cons_of_mem a m)
    simp [splitOnChar, ha, ih h']

theorem splitOnChar_append_cons (c : Char) (l r : List Char) (h : c ∉ l) :
    splitOnChar c (l ++ c :: r) = l :: splitOnChar c r := by
  induction l with
  | nil => simp [splitOnChar]
  | cons a l ih =>
    have ha : ¬ a = c := fun e => h (by simp [e])
    have h' : c ∉ l := fun m => h (List.mem_cons_of_mem a m)
    simp [splitOnChar, ha, ih h']

theorem splitOnChar_joinLines (lines : List (List Char))
    (h : ∀ l ∈ lines, '\n' ∉ l) (hne : lines ≠ []) :
    splitOnChar '\n' (joinLines lines) = lines := by
  induction lines with
  | nil => exact absurd rfl hne
  | cons l rest ih =>
    cases rest with
    | nil =>
      rw [show joinLines [l] = l from rfl]
      exact splitOnChar_of_not_mem '\n' l (h l (by simp))
    | cons l2 rest2 =>
      rw [show joinLines (l :: l2 :: rest2) = l ++ '\n' :: joinLines (l2 :: rest2)
        from rfl]
      rw [splitOnChar_append_cons '\n' l _ (h l (by simp))]
      rw [ih (fun x hx => h x (by simp [hx])) (by simp)]

theorem renderBlock_no_newline (b : HeaderBlock) (hwf : wfBlock b) :
    ∀ l ∈ renderBlock b, '\n' ∉ l := by
  obtain ⟨h1, _, h3, _, _, h6, _, _, h9, _, _⟩ := hwf
  intro l hl
  simp only [renderBlock, List.mem_cons, List.not_mem_nil, or_false] at hl
  rcases hl with rfl | rfl | rfl
  · intro hm
    rcases List.mem_append.mp hm with hm | hm
    · exact absurd hm (by decide)
    rcases List.mem_cons.mp hm with hm | hm
    · exact absurd hm (by decide)
    · exact h1 hm
  · intro hm
    rcases List.mem_append.mp hm with hm | hm
    · exact absurd hm (by decide)
    rcases List.mem_cons.mp hm with hm | hm
    · exact absurd hm (by decide)
    · exact h3 hm
  · intro hm
    rcases List.mem_append.mp hm with hm | hm
    · exact absurd hm (by decide)
    rcases List.mem_cons.mp hm with hm | hm
    · exact absurd hm (by decide)
    rcases List.mem_append.mp hm with hm | hm
    · exact h6 hm
    rcases List.mem_cons.mp hm with hm | hm
    · exact absurd hm (by decide)
    rcases List.mem_cons.mp hm with hm | hm
    · exact absurd hm (by decide)
    rcases List.mem_append.mp hm with hm | hm
    · exact h9 hm
    · exact absurd hm (by decide)

theorem render_lines_no_newline (bs : List HeaderBlock) (hwf : ∀ b ∈ bs, wfBlock b) :
    ∀ l ∈ (bs.map renderBlock).flatten, '\n' ∉ l := by
  intro l hl
  rw [List.mem_flatten] at hl
  obtain ⟨ls, hls, hml⟩ := hl
  rw [List.mem_map] at hls
  obtain ⟨b, hb, rfl⟩ := hls
  exact renderBlock_no_newline b (hwf b hb) l hml

/-- C3: rendering any list of N well-formed header blocks as a report and
parsing it yields exactly N records whose name, domains, expiry and status
annotation equal the constructed inputs verbatim. -/
theorem C3_roundtrip (bs : List HeaderBlock) (hwf : ∀ b ∈ bs, wfBlock b) :
    list_certificates_parse (renderReport bs) = .ok (bs.map blockRecord)
    ∧ (bs.map blockRecord).length = bs.length := by
  refine ⟨?_, by simp⟩
  cases bs with
  | nil => decide
  | cons b bs' =>
    rw [list_certificates_parse, renderReport]
    rw [splitOnChar_joinLines _ (render_lines_no_newline _ hwf) (by simp [renderBlock])]
    rw [parseCerts]
    exact parseCertsN_render _ _ le_rfl hwf

theorem C3_roundtrip_witness :
    list_certificates_parse (renderReport
      [⟨"example.com".toList, "example.com www.example.com".toList,
        "2025-01-01 00:00:00+00:00".toList, "VALID: 30 days".toList⟩,
       ⟨"foo".toList, "foo.org".toList, "2026-02-03".toList, "OK".toList⟩])
      = .ok
        [⟨"example.com".toList, "example.com www.example.com".toList,
          "2025-01-01 00:00:00+00:00".toList, "VALID: 30 days".toList⟩,
         ⟨"foo".toList, "foo.org".toList, "2026-02-03".toList, "OK".toList⟩] :=
  (C3_roundtrip
    [⟨"example.com".toList, "example.com www.example.com".toList,
      "2025-01-01 00:00:00+00:00".toList, "VALID: 30 days".toList⟩,
     ⟨"foo".toList, "foo.org".toList, "2026-02-03".toList, "OK".toList⟩]
    (by decide)).1

theorem parseCertsN_no_header : ∀ (n : Nat) (lines : List (List Char)),
    (∀ l ∈ lines, headerLabel.isPrefixOf l = false) →
    parseCertsN n lines = .ok [] := by
  intro n
  induction n with
  | zero =>
    intro lines _
    cases lines <;> rfl
  | succ n ih =>
    intro lines h
    cases lines with
    | nil => rfl
    | cons l rest =>
      have hl := h l (by simp)
      simp only [parseCertsN, hl, Bool.false_eq_true, if_false]
      exact ih rest fun x hx => h x (by simp [hx])

/-- C7: an input report with no header line parses to the empty record
list as a normal outcome: no exception, no error value. -/
theorem C7_no_headers (output : List Char)
    (h : ∀ l ∈ splitOnChar '\n' output, headerLabel.isPrefixOf l = false) :
    list_certificates_parse output = .ok [] :=
  parseCertsN_no_header _ _ h

theorem C7_no_headers_witness :
    list_certificates_parse ("hello\nworld".toList) = .ok [] :=
  C7_no_headers ("hello\nworld".toList) (by decide)

theorem append_of_isPrefixOf : ∀ {p l : List Char}, p.isPrefixOf l = true →
    ∃ t, p ++ t = l
  | [], l, _ => ⟨l, rfl⟩
  | a :: p, [], h => by simp [List.isPrefixOf] at h
  | a :: p, b :: l, h => by
    simp only [List.isPrefixOf, Bool.and_eq_true, beq_iff_eq] at h
    obtain ⟨rfl, hpl⟩ := h
    obtain ⟨t, rfl⟩ := append_of_isPrefixOf hpl
    exact ⟨t, rfl⟩

theorem afterColon1_ok_of_label (q p l : List Char)
    (hpq : p = q ++ [':']) (hq : ':' ∉ q)
    (h : p.isPrefixOf l = true) : ∃ r, afterColon1 l = .ok r := by
  obtain ⟨t, rfl⟩ := append_of_isPrefixOf h
  subst hpq
  rw [List.append_assoc, List.singleton_append]
  exact ⟨t, afterColon1_append q t hq⟩

theorem splitParen_two_of_sep : ∀ (s : List Char), containsSep s = true →
    ∃ a b t, splitParen s = a :: b :: t
  | [], h => by simp [containsSep] at h
  | [c], h => by simp [containsSep] at h
  | c1 :: c2 :: rest, h => by
    by_cases hsep : (decide (c1 = ' ') && decide (c2 = '(')) = true
    · cases hsp : splitParen rest with
      | nil => exact absurd hsp (splitParen_ne_nil rest)
      | cons b t =>
        refine ⟨[], b, t, ?_⟩
        simp only [splitParen, hsep, if_true, hsp]
    · have hsep' : (decide (c1 = ' ') && decide (c2 = '(')) = false := by
        simpa using hsep
      have h' : containsSep (c2 :: rest) = true := by
        simp only [containsSep, Bool.or_eq_true] at h
        rcases h with h | h
        · exact absurd h hsep
        · exact h
      obtain ⟨a, b, t, hab⟩ := splitParen_two_of_sep (c2 :: rest) h'
      refine ⟨c1 :: a, b, t, ?_⟩
      simp only [splitParen, hsep', Bool.false_eq_true, if_false, hab]

theorem parseExpiryRemainder_ok (el : List Char) :
    ∃ p, parseExpiryRemainder el = .ok p := by
  by_cases hc : containsSep el = true
  · obtain ⟨a, b, t, hab⟩ := splitParen_two_of_sep el hc
    exact ⟨(pyStrip a, pyRStripParen b), by simp [parseExpiryRemainder, hab, hc]⟩
  · have hc' : containsSep el = false := by simpa using hc
    cases hsp : splitParen el with
    | nil => exact absurd hsp (splitParen_ne_nil el)
    | cons e0 t =>
      exact ⟨(pyStrip e0, []), by simp [parseExpiryRemainder, hsp, hc']⟩

theorem parseBody_ok (lines : List (List Char)) :
    ∀ d e s, ∃ f k, parseBody lines d e s = .ok (f, k) := by
  induction lines with
  | nil => exact fun d e s => ⟨(d, e, s), 0, rfl⟩
  | cons l rest ih =>
    intro d e s
    by_cases h1 : (headerLabel.isPrefixOf l || (pyStrip l).isEmpty) = true
    · exact ⟨(d, e, s), 0, by simp [parseBody, h1]⟩
    · have h1' : (headerLabel.isPrefixOf l || (pyStrip l).isEmpty) = false := by
        rwa [Bool.not_eq_true] at h1
      by_cases h2 : domainsLabel.isPrefixOf l = true
      · obtain ⟨r, hr⟩ := afterColon1_ok_of_label "    Domains".toList domainsLabel l
          (by decide) (by decide) h2
        obtain ⟨f, k, hpb⟩ := ih (pyStrip r) e s
        exact ⟨f, k + 1, by simp [parseBody, h1', h2, hr, hpb]⟩
      · have h2' : domainsLabel.isPrefixOf l = false := by
          rwa [Bool.not_eq_true] at h2
        by_cases h3 : expiryLabel.isPrefixOf l = true
        · obtain ⟨r, hr⟩ := afterColon1_ok_of_label "    Expiry Date".toList expiryLabel l
            (by decide) (by decide) h3
          obtain ⟨⟨e2, s2⟩, hper⟩ := parseExpiryRemainder_ok (pyStrip r)
          obtain ⟨f, k, hpb⟩ := ih d e2 s2
          exact ⟨f, k + 1, by simp [parseBody, h1', h2', h3, hr, hper, hpb]⟩
        · have h3' : expiryLabel.isPrefixOf l = false := by
            rwa [Bool.not_eq_true] at h3
          obtain ⟨f, k, hpb⟩ := ih d e s
          exact ⟨f, k + 1, by simp [parseBody, h1', h2', h3', hpb]⟩

theorem parseCertsN_ok (n : Nat) : ∀ (lines : List (List Char)),
    ∃ recs, parseCertsN n lines = .ok recs := by
  induction n with
  | zero =>
    intro lines
    cases lines <;> exact ⟨[], rfl⟩
  | succ n ih =>
    intro lines
    cases lines with
    | nil => exact ⟨[], rfl⟩
    | cons l rest =>
      by_cases hh : headerLabel.isPrefixOf l = true
      · obtain ⟨r, hr⟩ := afterColon1_ok_of_label "  Certificate Name".toList
          headerLabel l (by decide) (by decide) hh
        obtain ⟨⟨d, e, s⟩, k, hpb⟩ := parseBody_ok rest [] [] []
        obtain ⟨recs, hrec⟩ := ih (rest.drop k)
        exact ⟨⟨pyStrip r, d, e, s⟩ :: recs,
          by simp [parseCertsN, hh, hr, hpb, hrec]⟩
      · have hh' : headerLabel.isPrefixOf l = false := by
          rwa [Bool.not_eq_true] at hh
        obtain ⟨recs, hrec⟩ := ih rest
        exact ⟨recs, by simp [parseCertsN, hh', hrec]⟩

/-- C10: the inventory parser is total: on every input string the line
scan returns a well-defined record list and never raises — every indexing
of a split result is covered by the corresponding prefix or substring
guard. -/
theorem C10_parser_total (output : List Char) :
    ∃ recs, list_certificates_parse output = .ok recs :=
  parseCertsN_ok _ _

/-- C5: on the expiry remainder `"X (A (B)"`, which contains two `' ('`
occurrences, the code takes the segment strictly between the first and
second occurrences (`"A"`), not everything to the right of the first
occurrence with the trailing `')'` removed (`"A (B"`), so the claim's
description of status_annotation fails. -/
theorem C5_counterexample :
    parseExpiryRemainder ("X (A (B)".toList) = .ok ("X".toList, "A".toList)
    ∧ pyRStripParen (textAfterFirstSep ("X (A (B)".toList)) = "A (B".toList
    ∧ "A".toList ≠ "A (B".toList := by
  exact ⟨by decide, by decide, by decide⟩

/-- C5 (amended): the expiry-line remainder is split on `' ('`: `expiry`
is the trimmed text before the first occurrence; `status_annotation` is
the segment strictly between the first and second occurrences (to the end
of the remainder when there is no second), with all trailing `')'`
characters removed; when the remainder contains no `' ('` at all,
`status_annotation` is empty and `expiry` is the whole trimmed
remainder. -/
theorem C5_expiry_split (r a b c : List Char) :
    (containsSep r = false → parseExpiryRemainder r = .ok (pyStrip r, []))
    ∧ (containsSep a = false → containsSep b = false →
        parseExpiryRemainder (a ++ ' ' :: '(' :: b)
          = .ok (pyStrip a, pyRStripParen b))
    ∧ (containsSep a = false → containsSep b = false →
        parseExpiryRemainder (a ++ ' ' :: '(' :: (b ++ ' ' :: '(' :: c))
          = .ok (pyStrip a, pyRStripParen b)) :=
  ⟨fun h => parseExpiryRemainder_no_sep r h,
   fun ha hb => parseExpiryRemainder_one_sep a b ha hb,
   fun ha hb => parseExpiryRemainder_two_sep a b c ha hb⟩

theorem C5_expiry_split_witness :
    parseExpiryRemainder ("2025-01-01".toList) = .ok ("2025-01-01".toList, [])
    ∧ parseExpiryRemainder ("2025-01-01".toList ++ ' ' :: '(' :: "VALID)".toList)
        = .ok (pyStrip ("2025-01-01".toList), pyRStripParen ("VALID)".toList))
    ∧ parseExpiryRemainder
        ("X".toList ++ ' ' :: '(' :: ("A".toList ++ ' ' :: '(' :: "B)".toList))
        = .ok (pyStrip ("X".toList), pyRStripParen ("A".toList)) :=
  ⟨(C5_expiry_split ("2025-01-01".toList) [] [] []).1 (by decide),
   (C5_expiry_split [] ("2025-01-01".toList) ("VALID)".toList) []).2.1
     (by decide) (by decide),
   (C5_expiry_split [] ("X".toList) ("A".toList) ("B)".toList)).2.2
     (by decide) (by decide)⟩

/-- The iteration bound of `parseCertsN` is irrelevant once it is at least
the number of lines: the scan consumes at least one line per iteration,
so `parseCerts` (which starts the bound at the number of lines) computes
the full loop of the source. -/
theorem parseCertsN_fuel : ∀ (n m : Nat) (lines : List (List Char)),
    lines.length ≤ n → lines.length ≤ m →
    parseCertsN n lines = parseCertsN m lines := by
  intro n
  induction n with
  | zero =>
    intro m lines hn _
    have h : lines = [] := List.eq_nil_of_length_eq_zero (Nat.le_zero.mp hn)
    subst h
    cases m <;> rfl
  | succ n ih =>
    intro m lines hn hm
    cases lines with
    | nil => cases m <;> rfl
    | cons l rest =>
      cases m with
      | zero => simp at hm
      | succ m' =>
        have hr : rest.length ≤ n := by
          simp only [List.length_cons] at hn
          omega
        have hr' : rest.length ≤ m' := by
          simp only [List.length_cons] at hm
          omega
        simp only [parseCertsN]
        by_cases hh : headerLabel.isPrefixOf l = true
        · simp only [hh, if_true]
          cases hac : afterColon1 l with
          | error err => rfl
          | ok nameRest =>
            cases hpb : parseBody rest [] [] [] with
            | error err => rfl
            | ok fk =>
              obtain ⟨⟨d, e, s⟩, k⟩ := fk
              have hd : (rest.drop k).length ≤ n := by
                rw [List.length_drop]
                omega
              have hd' : (rest.drop k).length ≤ m' := by
                rw [List.length_drop]
                omega
              dsimp only
              rw [ih m' (rest.drop k) hd hd']
        · have hh' : headerLabel.isPrefixOf l = false := by
            rwa [Bool.not_eq_true] at hh
          simp only [hh', Bool.false_eq_true, if_false]
          exact ih m' rest hr hr'

end AutoCertbot
